import Mathlib

/-!
Verification of the diff-alignment engine of the `staged` repository.

The definitions below are shallow embeddings of the Rust source:
  * `src/src-tauri/src/diff/types.rs`   — `Span`, `Alignment`, `File`, `FileContent`
  * `src/src-tauri/src/diff/git.rs`     — `Hunk`, `compute_alignments_from_hunks`,
                                          the hunk normalization in `collect_file_changes`
  * `src/src-tauri/src/git/diff/mod.rs` — `is_binary_content`, `get_untracked_file_diff`

Machine integers (`u32`, `usize`) are modelled as `Nat`.  Rust's
`saturating_sub` coincides with truncated `Nat` subtraction, and the plain
`u32` subtractions of the source are modelled by truncated `Nat` subtraction,
which matches release-mode wrapping semantics at every point where the result
feeds only a `> 0` test (see `gapUnderflows` for the explicit tracking of the
points where a debug build would panic on underflow).
-/

namespace Staged

/-- `Span` from `diff/types.rs`: a contiguous range of lines, 0-indexed,
exclusive end.  The Rust field `end` is a Lean keyword, rendered `stop`. -/
structure Span where
  start : Nat
  stop : Nat
  deriving Repr, DecidableEq

/-- `Span::new` from `diff/types.rs`. -/
def Span.new (start stop : Nat) : Span := ⟨start, stop⟩

/-- `Span::len` from `diff/types.rs`: `self.end.saturating_sub(self.start)`;
`Nat` subtraction is exactly saturating subtraction. -/
def Span.len (s : Span) : Nat := s.stop - s.start

/-- `Span::is_empty` from `diff/types.rs`. -/
def Span.is_empty (s : Span) : Bool := s.len == 0

/-- `Alignment` from `diff/types.rs`. -/
structure Alignment where
  before : Span
  after : Span
  changed : Bool
  deriving Repr, DecidableEq

/-- `FileContent` from `diff/types.rs`. -/
inductive FileContent where
  | text (lines : List String)
  | binary
  deriving Repr, DecidableEq

/-- `FileContent::lines` from `diff/types.rs`: the lines of text content,
or the empty slice for binary content. -/
def FileContent.lines : FileContent → List String
  | .text lines => lines
  | .binary => []

/-- `File` from `diff/types.rs`. -/
structure File where
  path : String
  content : FileContent
  deriving Repr, DecidableEq

/-- `Hunk` from `diff/git.rs`: a hunk from git diff, converted to 0-indexed
line numbers. -/
structure Hunk where
  old_start : Nat
  old_lines : Nat
  new_start : Nat
  new_lines : Nat
  deriving Repr, DecidableEq

/-- The line buffer that `compute_alignments_from_hunks` reads from an
`Option<File>` argument: `f.content.lines()` for `Some f`, nothing for
`None`.  Its length is the `before_len`/`after_len` of the source
(`before.as_ref().map(|f| f.content.lines().len()).unwrap_or(0)`). -/
def fileLines : Option File → List String
  | some f => f.content.lines
  | none => []

/-- The hunk loop of `compute_alignments_from_hunks` (`diff/git.rs`
lines 388–432), written as a recursion over the hunk list.  The cursor pair
`(before_pos, after_pos)` is threaded explicitly; the base case is the
trailing unchanged region after the last hunk.  The inner
`before_gap > 0 || after_gap > 0` test of the source is kept verbatim
(with `Nat` truncated subtraction for the release-mode `u32` subtraction). -/
def alignLoop (before_len after_len : Nat) : List Hunk → Nat → Nat → List Alignment
  | [], before_pos, after_pos =>
    -- Unchanged region after the last hunk
    if before_pos < before_len || after_pos < after_len then
      [{ before := Span.new before_pos before_len
         after := Span.new after_pos after_len
         changed := false }]
    else []
  | hunk :: rest, before_pos, after_pos =>
    -- Unchanged region before this hunk
    let gap : List Alignment :=
      if before_pos < hunk.old_start || after_pos < hunk.new_start then
        let before_gap := hunk.old_start - before_pos
        let after_gap := hunk.new_start - after_pos
        if before_gap > 0 || after_gap > 0 then
          [{ before := Span.new before_pos hunk.old_start
             after := Span.new after_pos hunk.new_start
             changed := false }]
        else []
      else []
    -- The hunk itself (changed region)
    let hunk_before_end := hunk.old_start + hunk.old_lines
    let hunk_after_end := hunk.new_start + hunk.new_lines
    gap ++
      { before := Span.new hunk.old_start hunk_before_end
        after := Span.new hunk.new_start hunk_after_end
        changed := true } ::
      alignLoop before_len after_len rest hunk_before_end hunk_after_end

/-- `compute_alignments_from_hunks` from `diff/git.rs` (lines 343–433). -/
def compute_alignments_from_hunks (hunks : List Hunk)
    (before after : Option File) : List Alignment :=
  let before_len := (fileLines before).length
  let after_len := (fileLines after).length
  -- Handle empty files
  if before_len = 0 ∧ after_len = 0 then
    []
  -- If no hunks but files exist, it's either all added or all deleted
  else if hunks.isEmpty then
    if before_len = 0 then
      -- All added
      [{ before := Span.new 0 0, after := Span.new 0 after_len, changed := true }]
    else if after_len = 0 then
      -- All deleted
      [{ before := Span.new 0 before_len, after := Span.new 0 0, changed := true }]
    else
      -- No changes (shouldn't happen for files in a diff, but handle gracefully)
      [{ before := Span.new 0 before_len, after := Span.new 0 after_len, changed := false }]
  else
    alignLoop before_len after_len hunks 0 0

/-- The hunk-normalization step of the hunk callback in `collect_file_changes`
(`diff/git.rs` lines 307–332): git reports 1-indexed start lines; a start of
`0` (the empty-file anchor) stays `0`, any other start is decremented by one,
and the line counts are passed through unchanged. -/
def normalize_hunk (old_start old_lines new_start new_lines : Nat) : Hunk :=
  { old_start := if old_start = 0 then 0 else old_start - 1
    old_lines := old_lines
    new_start := if new_start = 0 then 0 else new_start - 1
    new_lines := new_lines }

/-- `FileContent::is_binary_data` from `diff/types.rs` (lines 121–125):
check for null bytes in the first 8 KiB.  Bytes are modelled as `Nat`. -/
def FileContent.is_binary_data (bytes : List Nat) : Bool :=
  let check_len := min bytes.length 8192
  (bytes.take check_len).contains 0

/-! ## Invariant predicates

These express the spec's structural invariants over an `Alignment` list and
the well-formedness assumptions on hunk lists; they are the properties the
theorems below are about, not translations of source code. -/

/-- `spansCover len pos spans`: the spans, concatenated in order starting at
`pos`, exactly reconstruct `[pos, len)` with no gaps or overlaps (each span
starts where the previous one ended, is non-reversed, and the last one ends
at `len`). -/
def spansCover (len : Nat) : Nat → List Span → Bool
  | pos, [] => pos == len
  | pos, s :: rest =>
    (s.start == pos) && decide (s.start ≤ s.stop) && spansCover len s.stop rest

/-- Well-formedness of a hunk list relative to cursor positions
`(bpos, apos)`: hunks are in ascending order, non-overlapping (each hunk
starts at or after the running cursor on both sides), and every hunk's old
and new ranges lie within `[0, before_len)` resp. `[0, after_len)`. -/
def hunksWF (before_len after_len : Nat) : Nat → Nat → List Hunk → Bool
  | _, _, [] => true
  | bpos, apos, h :: rest =>
    decide (bpos ≤ h.old_start) && decide (apos ≤ h.new_start) &&
    decide (h.old_start + h.old_lines ≤ before_len) &&
    decide (h.new_start + h.new_lines ≤ after_len) &&
    hunksWF before_len after_len (h.old_start + h.old_lines) (h.new_start + h.new_lines) rest

/-- `gapUnderflows bpos apos hunks` is `true` when the gap computations
`hunk.old_start - before_pos` / `hunk.new_start - after_pos` inside the loop
of `compute_alignments_from_hunks` would underflow `u32` subtraction for some
hunk (i.e. the loop enters the gap branch while a cursor is already past the
hunk's start) — the spot where a debug build of the source would panic. -/
def gapUnderflows : Nat → Nat → List Hunk → Bool
  | _, _, [] => false
  | bpos, apos, h :: rest =>
    ((decide (bpos < h.old_start) || decide (apos < h.new_start)) &&
      (decide (h.old_start < bpos) || decide (h.new_start < apos))) ||
    gapUnderflows (h.old_start + h.old_lines) (h.new_start + h.new_lines) rest

/-- The lines of `bl` starting at `bpos` agree element-wise with the lines of
`al` starting at `apos`, for `n` consecutive positions. -/
def linesAgree (bl al : List String) (bpos apos n : Nat) : Bool :=
  (List.range n).all (fun i => bl.get? (bpos + i) == al.get? (apos + i))

/-- `gapsOk bl al bpos apos hunks`: the hunk list faithfully describes the
differences between the two buffers from cursors `(bpos, apos)` on — the gap
before each hunk and the trailing gap after the last hunk have the same size
on both sides and element-wise equal line content. -/
def gapsOk (bl al : List String) : Nat → Nat → List Hunk → Bool
  | bpos, apos, [] =>
    decide (bpos ≤ bl.length) && decide (apos ≤ al.length) &&
    (bl.length - bpos == al.length - apos) &&
    linesAgree bl al bpos apos (bl.length - bpos)
  | bpos, apos, h :: rest =>
    decide (bpos ≤ h.old_start) && decide (apos ≤ h.new_start) &&
    (h.old_start - bpos == h.new_start - apos) &&
    linesAgree bl al bpos apos (h.old_start - bpos) &&
    gapsOk bl al (h.old_start + h.old_lines) (h.new_start + h.new_lines) rest

/-- A hunk list together with the two buffers is faithful when either it is
the no-hunk pure-addition/pure-deletion case, or all gaps around the hunks
are size-consistent with element-wise equal content (`gapsOk`). -/
def hunksFaithful (before after : Option File) (hunks : List Hunk) : Bool :=
  let bl := fileLines before
  let al := fileLines after
  (hunks.isEmpty && (bl.length == 0 || al.length == 0)) || gapsOk bl al 0 0 hunks

end Staged

namespace Staged.GitDiff

/-! ## `src/src-tauri/src/git/diff/mod.rs`

This module has its own `Span`/`FileDiff` types (distinct from the ones in
`diff/types.rs`), plus the binary check `is_binary_content` and the pure core
of `get_untracked_file_diff`.  Decoded text is represented by its UTF-8
bytes (`List Nat`), so a line's `content` is the list of bytes of the line. -/

/-- `Span` from `git/diff/mod.rs`: half-open interval `[start, end)` of row
indices (`usize` fields, modelled as `Nat`; `end` is a Lean keyword, rendered
`stop`). -/
structure Span where
  start : Nat
  stop : Nat
  deriving Repr, DecidableEq

/-- `SourceLines` from `git/diff/mod.rs`. -/
structure SourceLines where
  old_start : Option Nat
  old_end : Option Nat
  new_start : Option Nat
  new_end : Option Nat
  deriving Repr, DecidableEq

/-- `Range` from `git/diff/mod.rs`. -/
structure Range where
  before : Span
  after : Span
  changed : Bool
  source_lines : Option SourceLines
  deriving Repr, DecidableEq

/-- `DiffLine` from `git/diff/mod.rs`; `content` holds the line's bytes. -/
structure DiffLine where
  line_type : String
  lineno : Nat
  content : List Nat
  deriving Repr, DecidableEq

/-- `HunkLine`, re-exported from the `parse` submodule whose source file is
not present; its fields are those populated at `git/diff/mod.rs` lines
270–278. -/
structure HunkLine where
  line_type : String
  old_lineno : Option Nat
  new_lineno : Option Nat
  content : List Nat
  deriving Repr, DecidableEq

/-- `DiffHunk`, re-exported from the `parse` submodule whose source file is
not present; its fields are those populated at `git/diff/mod.rs` lines
264–279. -/
structure DiffHunk where
  old_start : Nat
  old_lines : Nat
  new_start : Nat
  new_lines : Nat
  header : String
  lines : List HunkLine
  deriving Repr, DecidableEq

/-- `DiffSide` from `git/diff/mod.rs`. -/
structure DiffSide where
  path : Option String
  lines : List DiffLine
  deriving Repr, DecidableEq

/-- `FileDiff` from `git/diff/mod.rs`. -/
structure FileDiff where
  status : String
  is_binary : Bool
  hunks : List DiffHunk
  before : DiffSide
  after : DiffSide
  ranges : List Range
  deriving Repr, DecidableEq

/-- `is_binary_content` from `git/diff/mod.rs` (lines 378–381): bytes appear
to be binary when they contain a null byte — anywhere, with no length cap. -/
def is_binary_content (bytes : List Nat) : Bool :=
  bytes.contains 0

/-- A continuation byte of a UTF-8 sequence: `0x80..=0xBF`. -/
def utf8Cont (b : Nat) : Bool :=
  decide (0x80 ≤ b) && decide (b ≤ 0xBF)

/-- Validity of a byte sequence as UTF-8, as checked by Rust's
`String::from_utf8` (standard UTF-8: no overlong encodings, no surrogates,
code points at most `U+10FFFF`). -/
def utf8Valid : List Nat → Bool
  | [] => true
  | b :: rest =>
    if b ≤ 0x7F then
      utf8Valid rest
    else if 0xC2 ≤ b ∧ b ≤ 0xDF then
      match rest with
      | c1 :: rest2 => utf8Cont c1 && utf8Valid rest2
      | [] => false
    else if b = 0xE0 then
      match rest with
      | c1 :: c2 :: rest2 =>
        decide (0xA0 ≤ c1) && decide (c1 ≤ 0xBF) && utf8Cont c2 && utf8Valid rest2
      | _ => false
    else if (0xE1 ≤ b ∧ b ≤ 0xEC) ∨ b = 0xEE ∨ b = 0xEF then
      match rest with
      | c1 :: c2 :: rest2 => utf8Cont c1 && utf8Cont c2 && utf8Valid rest2
      | _ => false
    else if b = 0xED then
      match rest with
      | c1 :: c2 :: rest2 =>
        decide (0x80 ≤ c1) && decide (c1 ≤ 0x9F) && utf8Cont c2 && utf8Valid rest2
      | _ => false
    else if b = 0xF0 then
      match rest with
      | c1 :: c2 :: c3 :: rest2 =>
        decide (0x90 ≤ c1) && decide (c1 ≤ 0xBF) && utf8Cont c2 && utf8Cont c3 &&
          utf8Valid rest2
      | _ => false
    else if 0xF1 ≤ b ∧ b ≤ 0xF3 then
      match rest with
      | c1 :: c2 :: c3 :: rest2 =>
        utf8Cont c1 && utf8Cont c2 && utf8Cont c3 && utf8Valid rest2
      | _ => false
    else if b = 0xF4 then
      match rest with
      | c1 :: c2 :: c3 :: rest2 =>
        decide (0x80 ≤ c1) && decide (c1 ≤ 0x8F) && utf8Cont c2 && utf8Cont c3 &&
          utf8Valid rest2
      | _ => false
    else false

/-- Strip one trailing carriage return (applied by `str::lines` to a line
that was terminated by a line feed). -/
def stripCr (l : List Nat) : List Nat :=
  if l.getLast? = some 13 then l.dropLast else l

/-- Rust's `str::lines` over the UTF-8 bytes of a string: split at `\n`
(byte 10), strip one trailing `\r` from a line that was `\n`-terminated, and
do not produce a final empty line for a trailing `\n`.  Byte 10 never occurs
inside a multi-byte UTF-8 sequence, so splitting bytes coincides with
splitting the decoded string.  `rustLinesGo` accumulates the current line in
reverse; a line terminated by a line feed gets its trailing carriage return
stripped, the final unterminated line does not. -/
def rustLinesGo : List Nat → List Nat → List (List Nat)
  | acc, [] => [acc.reverse]
  | acc, 10 :: rest =>
    match rest with
    | [] => [stripCr acc.reverse]
    | r :: rs => stripCr acc.reverse :: rustLinesGo [] (r :: rs)
  | acc, b :: rest => rustLinesGo (b :: acc) rest

def rustLines : List Nat → List (List Nat)
  | [] => []
  | s => rustLinesGo [] s

/-- The pure core of `get_untracked_file_diff` from `git/diff/mod.rs`
(lines 177–290), after the file's bytes have been read from disk: classify
binary by `is_binary_content`, fall back to binary when the bytes are not
valid UTF-8 (`String::from_utf8` fails), and otherwise emit every line as
"added" with a single pure-addition range and one synthetic hunk. -/
def get_untracked_file_diff (file_path : String) (bytes : List Nat) : FileDiff :=
  -- Check if binary (contains null bytes)
  if is_binary_content bytes then
    { status := "untracked", is_binary := true, hunks := []
      before := { path := none, lines := [] }
      after := { path := some file_path, lines := [] }
      ranges := [] }
  -- Try to convert to UTF-8; not valid UTF-8 is treated as binary
  else if !utf8Valid bytes then
    { status := "untracked", is_binary := true, hunks := []
      before := { path := none, lines := [] }
      after := { path := some file_path, lines := [] }
      ranges := [] }
  else
    let after_lines : List DiffLine :=
      (rustLines bytes).enum.map (fun p =>
        { line_type := "added", lineno := p.1 + 1, content := p.2 })
    let line_count := after_lines.length
    -- Single range: empty before, all lines in after
    let ranges : List Range :=
      [{ before := { start := 0, stop := 0 }
         after := { start := 0, stop := line_count }
         changed := true
         source_lines := some
           { old_start := none, old_end := none
             new_start := some 1, new_end := some line_count } }]
    { status := "untracked", is_binary := false
      hunks := [{ old_start := 0, old_lines := 0, new_start := 1, new_lines := line_count
                  header := "@@ -0,0 +1," ++ toString line_count ++ " @@"
                  lines := after_lines.map (fun l =>
                    { line_type := l.line_type, old_lineno := none
                      new_lineno := some l.lineno, content := l.content }) }]
      before := { path := none, lines := [] }
      after := { path := some file_path, lines := after_lines }
      ranges := ranges }

end Staged.GitDiff

namespace Staged.MatchFinder

/-! ## MatchFinder (spec §4.2)

The fallback content-matching algorithm.  Its source file (the
`side_by_side` submodule of `git/diff`) is declared in `git/diff/mod.rs` but
not present in the repository snapshot, so the component is modelled from the
spec. -/

/-- Modelled from the spec: select the first unused occurrence of `line` in
the "after" sequence (greedy, leftmost-available tie-break); `used` is the
per-invocation used-positions set over "after" positions. -/
def firstUnused (after : List String) (used : List Bool) (line : String) : Option Nat :=
  (List.range after.length).find? (fun j =>
    (after.get? j == some line) && !(used.getD j false))

/-- Modelled from the spec: how far a match extends forward from
`(bpos, j)` — one line at a time while both sequences agree and the "after"
position is still unused.  `fuel` only bounds the recursion; the condition
fails at the latest when `bpos` leaves the "before" buffer, so any
`fuel ≥ before.length - bpos` gives the same value. -/
def runLen (before after : List String) (used : List Bool) :
    Nat → Nat → Nat → Nat
  | 0, _, _ => 0
  | fuel + 1, bpos, j =>
    if bpos < before.length && (before.get? bpos == after.get? j) &&
        !(used.getD j false) then
      1 + runLen before after used fuel (bpos + 1) (j + 1)
    else 0

/-- Modelled from the spec: mark the "after" positions `[j, j + r)` used. -/
def markUsed (used : List Bool) (j r : Nat) : List Bool :=
  (List.range used.length).map (fun i =>
    if j ≤ i ∧ i < j + r then true else used.getD i false)

/-- Modelled from the spec: the left-to-right scan of the "before" sequence.
At each position, look up the current line and select the first unused
occurrence in "after"; if found, take the maximal run from there, mark its
"after" positions used, record the `(before_start, after_start, length)`
triple and advance past the consumed region; otherwise advance by one.
`fuel` only bounds the recursion: each step advances `bpos` by at least one,
so any `fuel > before.length` gives the full scan. -/
def findGo (before after : List String) :
    Nat → Nat → List Bool → List (Nat × Nat × Nat)
  | 0, _, _ => []
  | fuel + 1, bpos, used =>
    match before.get? bpos with
    | none => []
    | some line =>
      match firstUnused after used line with
      | none => findGo before after fuel (bpos + 1) used
      | some j =>
        let len := 1 + runLen before after used before.length (bpos + 1) (j + 1)
        (bpos, j, len) :: findGo before after fuel (bpos + len) (markUsed used j len)

/-- Modelled from the spec: the MatchFinder — scan "before" left to right
with an initially empty used-set over "after" positions. -/
def findMatches (before after : List String) : List (Nat × Nat × Nat) :=
  findGo before after (before.length + 1) 0 (List.replicate after.length false)

end Staged.MatchFinder

namespace Staged

/-! ## Helper lemmas -/

@[simp]
lemma spansCover_nil (len pos : Nat) : spansCover len pos [] = (pos == len) := rfl

@[simp]
lemma spansCover_cons (len pos : Nat) (s : Span) (rest : List Span) :
    spansCover len pos (s :: rest) =
      ((s.start == pos) && decide (s.start ≤ s.stop) && spansCover len s.stop rest) := rfl

lemma fileLines_length_none : (fileLines none).length = 0 := rfl

/-! ## Claims C4, C5, C6, C9 — `compute_alignments_from_hunks` basics -/

/-- C5.  Emptiness: the alignment list returned by
`compute_alignments_from_hunks` is empty if and only if both line buffers
have zero lines. -/
theorem alignments_empty_iff (hunks : List Hunk) (before after : Option File) :
    compute_alignments_from_hunks hunks before after = [] ↔
      ((fileLines before).length = 0 ∧ (fileLines after).length = 0) := by
  unfold compute_alignments_from_hunks
  by_cases h : (fileLines before).length = 0 ∧ (fileLines after).length = 0
  · rw [if_pos h]
    exact iff_of_true rfl h
  · rw [if_neg h]
    refine iff_of_false ?_ h
    by_cases he : hunks.isEmpty
    · rw [if_pos he]
      split_ifs <;> simp
    · rw [if_neg he]
      cases hunks with
      | nil => simp at he
      | cons hunk rest =>
        simp only [alignLoop]
        simp [List.append_eq_nil]

/-- C9.  If both line buffers have zero lines, `compute_alignments_from_hunks`
returns the empty list even when the hunk list is non-empty: the hunks are
silently ignored. -/
theorem empty_buffers_ignore_hunks (hunks : List Hunk) (before after : Option File)
    (hb : (fileLines before).length = 0) (ha : (fileLines after).length = 0) :
    compute_alignments_from_hunks hunks before after = [] := by
  unfold compute_alignments_from_hunks
  simp [hb, ha]

/-- Witness for `empty_buffers_ignore_hunks`: a non-empty hunk list with two
empty buffers still yields the empty alignment list. -/
theorem empty_buffers_ignore_hunks_witness :
    compute_alignments_from_hunks [⟨0, 1, 0, 1⟩] none (some ⟨"t", .text []⟩) = [] :=
  empty_buffers_ignore_hunks [⟨0, 1, 0, 1⟩] none (some ⟨"t", .text []⟩) rfl rfl

/-- C4.  Degenerate-input policy with an empty hunk list: pure addition when
the before buffer is empty, pure deletion when the after buffer is empty, and
an unchanged full-file alignment when both are non-empty. -/
theorem degenerate_no_hunks (before after : Option File) :
    ((fileLines before).length = 0 → (fileLines after).length ≠ 0 →
      compute_alignments_from_hunks [] before after =
        [⟨Span.new 0 0, Span.new 0 (fileLines after).length, true⟩]) ∧
    ((fileLines after).length = 0 → (fileLines before).length ≠ 0 →
      compute_alignments_from_hunks [] before after =
        [⟨Span.new 0 (fileLines before).length, Span.new 0 0, true⟩]) ∧
    ((fileLines before).length ≠ 0 → (fileLines after).length ≠ 0 →
      compute_alignments_from_hunks [] before after =
        [⟨Span.new 0 (fileLines before).length, Span.new 0 (fileLines after).length, false⟩]) := by
  refine ⟨fun hb ha => ?_, fun ha hb => ?_, fun hb ha => ?_⟩ <;>
    · unfold compute_alignments_from_hunks
      simp [hb, ha]

/-- Witness for `degenerate_no_hunks`: concrete instances of all three
no-hunk cases. -/
theorem degenerate_no_hunks_witness :
    compute_alignments_from_hunks [] none (some ⟨"t", .text ["x", "y"]⟩) =
      [⟨Span.new 0 0, Span.new 0 2, true⟩] ∧
    compute_alignments_from_hunks [] (some ⟨"t", .text ["x", "y"]⟩) none =
      [⟨Span.new 0 2, Span.new 0 0, true⟩] ∧
    compute_alignments_from_hunks [] (some ⟨"t", .text ["x"]⟩) (some ⟨"t", .text ["y", "z"]⟩) =
      [⟨Span.new 0 1, Span.new 0 2, false⟩] :=
  ⟨(degenerate_no_hunks none (some ⟨"t", .text ["x", "y"]⟩)).1 rfl (by decide),
   (degenerate_no_hunks (some ⟨"t", .text ["x", "y"]⟩) none).2.1 rfl (by decide),
   (degenerate_no_hunks (some ⟨"t", .text ["x"]⟩) (some ⟨"t", .text ["y", "z"]⟩)).2.2
     (by decide) (by decide)⟩

/-- C6.  Hunk normalization in `collect_file_changes`: a 1-indexed start of
`0` maps to `0`, any other start `s` maps to `s - 1`, and the old/new line
counts pass through unchanged. -/
theorem hunk_normalization (os ol ns nl : Nat) :
    (os = 0 → (normalize_hunk os ol ns nl).old_start = 0) ∧
    (os ≠ 0 → (normalize_hunk os ol ns nl).old_start = os - 1) ∧
    (ns = 0 → (normalize_hunk os ol ns nl).new_start = 0) ∧
    (ns ≠ 0 → (normalize_hunk os ol ns nl).new_start = ns - 1) ∧
    (normalize_hunk os ol ns nl).old_lines = ol ∧
    (normalize_hunk os ol ns nl).new_lines = nl := by
  refine ⟨fun h => ?_, fun h => ?_, fun h => ?_, fun h => ?_, rfl, rfl⟩ <;>
    simp [normalize_hunk, h]

/-- Witness for `hunk_normalization`: the zero anchor stays `0` and a
positive start is decremented, at concrete values. -/
theorem hunk_normalization_witness :
    (normalize_hunk 0 5 3 7).old_start = 0 ∧
    (normalize_hunk 0 5 3 7).new_start = 2 ∧
    (normalize_hunk 0 5 3 7).old_lines = 5 ∧
    (normalize_hunk 0 5 3 7).new_lines = 7 :=
  ⟨(hunk_normalization 0 5 3 7).1 rfl,
   (hunk_normalization 0 5 3 7).2.2.2.1 (by decide),
   (hunk_normalization 0 5 3 7).2.2.2.2.1,
   (hunk_normalization 0 5 3 7).2.2.2.2.2⟩

end Staged

namespace Staged.MatchFinder

/-- C8.  MatchFinder determinism: on `["a","b","c","d"]` vs
`["a","x","c","d"]` the match finder returns exactly `[(0,0,1),(2,2,2)]`,
picking for each before line the first unused occurrence in after. -/
theorem matchfinder_determinism :
    findMatches ["a", "b", "c", "d"] ["a", "x", "c", "d"] = [(0, 0, 1), (2, 2, 2)] := by
  decide

end Staged.MatchFinder

namespace Staged.GitDiff

/-- C10.  `get_untracked_file_diff` treats content with no null byte that is
not valid UTF-8 as binary: `is_binary = true` with empty hunks, empty
before/after line lists, and an empty range list. -/
theorem untracked_invalid_utf8_binary (path : String) (bytes : List Nat)
    (_h0 : bytes.contains 0 = false) (h1 : utf8Valid bytes = false) :
    get_untracked_file_diff path bytes =
      { status := "untracked", is_binary := true, hunks := []
        before := { path := none, lines := [] }
        after := { path := some path, lines := [] }
        ranges := [] } := by
  unfold get_untracked_file_diff
  simp [is_binary_content, _h0, h1]

/-- Witness for `untracked_invalid_utf8_binary` at the byte `0xFF`, which is
never valid in UTF-8 and is not a null byte. -/
theorem untracked_invalid_utf8_binary_witness :
    get_untracked_file_diff "f" [255] =
      { status := "untracked", is_binary := true, hunks := []
        before := { path := none, lines := [] }
        after := { path := some "f", lines := [] }
        ranges := [] } :=
  untracked_invalid_utf8_binary "f" [255] (by decide) (by decide)

end Staged.GitDiff



namespace Staged

/-! ## Coverage of the hunk loop (claims C1, C3) -/

/-- The hunk loop preserves exhaustive coverage: starting from cursors
`(bpos, apos)` with a well-formed remaining hunk list, the emitted
alignments' before spans tile `[bpos, bl)` and their after spans tile
`[apos, al)`. -/
lemma alignLoop_covers (bl al : Nat) :
    ∀ (hunks : List Hunk) (bpos apos : Nat),
      hunksWF bl al bpos apos hunks = true → bpos ≤ bl → apos ≤ al →
      spansCover bl bpos ((alignLoop bl al hunks bpos apos).map Alignment.before) = true ∧
      spansCover al apos ((alignLoop bl al hunks bpos apos).map Alignment.after) = true := by
  intro hunks
  induction hunks with
  | nil =>
    intro bpos apos _ hb ha
    simp only [alignLoop]
    split
    · constructor <;> simp [Span.new, hb, ha]
    · next hc =>
      simp only [Bool.or_eq_true, decide_eq_true_eq, not_or, not_lt] at hc
      have h1 : bpos = bl := le_antisymm hb hc.1
      have h2 : apos = al := le_antisymm ha hc.2
      simp [h1, h2]
  | cons hunk rest ih =>
    intro bpos apos hwf hb ha
    simp only [hunksWF, Bool.and_eq_true, decide_eq_true_eq] at hwf
    obtain ⟨⟨⟨⟨h1, h2⟩, h3⟩, h4⟩, h5⟩ := hwf
    have ihr := ih (hunk.old_start + hunk.old_lines) (hunk.new_start + hunk.new_lines) h5 h3 h4
    simp only [alignLoop]
    split
    · next hc =>
      simp only [Bool.or_eq_true, decide_eq_true_eq] at hc
      have hgap : (decide (hunk.old_start - bpos > 0) || decide (hunk.new_start - apos > 0)) = true := by
        simp only [Bool.or_eq_true, decide_eq_true_eq]
        omega
      rw [if_pos hgap]
      constructor <;>
        simp [Span.new, h1, h2, ihr.1, ihr.2, Nat.le_add_right]
    · next hc =>
      simp only [Bool.or_eq_true, decide_eq_true_eq, not_or, not_lt] at hc
      have e1 : hunk.old_start = bpos := le_antisymm hc.1 h1
      have e2 : hunk.new_start = apos := le_antisymm hc.2 h2
      subst e1
      subst e2
      constructor <;>
        simp [Span.new, ihr.1, ihr.2, Nat.le_add_right]

/-- Exhaustive coverage of `compute_alignments_from_hunks` for well-formed
hunk lists, shared by the theorems for C1 and C3. -/
lemma compute_covers (hunks : List Hunk) (before after : Option File)
    (hwf : hunksWF (fileLines before).length (fileLines after).length 0 0 hunks = true) :
    spansCover (fileLines before).length 0
      ((compute_alignments_from_hunks hunks before after).map Alignment.before) = true ∧
    spansCover (fileLines after).length 0
      ((compute_alignments_from_hunks hunks before after).map Alignment.after) = true := by
  unfold compute_alignments_from_hunks
  by_cases h : (fileLines before).length = 0 ∧ (fileLines after).length = 0
  · rw [if_pos h]
    simp [h.1, h.2]
  · rw [if_neg h]
    by_cases he : hunks.isEmpty
    · rw [if_pos he]
      split_ifs with hb ha <;> constructor <;> simp_all [Span.new]
    · rw [if_neg he]
      exact alignLoop_covers _ _ hunks 0 0 hwf (Nat.zero_le _) (Nat.zero_le _)

/-- C1.  Exhaustive coverage: for every pair of line buffers and every
well-formed hunk list (ordered ascending, non-overlapping, ranges within the
buffer lengths), the before spans of the alignments concatenated in order
exactly reconstruct `[0, before_len)` with no gaps or overlaps, and the after
spans likewise reconstruct `[0, after_len)`. -/
theorem alignments_exhaustive_coverage (hunks : List Hunk) (before after : Option File)
    (hwf : hunksWF (fileLines before).length (fileLines after).length 0 0 hunks = true) :
    spansCover (fileLines before).length 0
      ((compute_alignments_from_hunks hunks before after).map Alignment.before) = true ∧
    spansCover (fileLines after).length 0
      ((compute_alignments_from_hunks hunks before after).map Alignment.after) = true :=
  compute_covers hunks before after hwf

/-- Witness for `alignments_exhaustive_coverage`: two well-formed hunks over
a 9-line / 11-line file pair (the repository's own
`test_alignments_exhaustive_coverage` input). -/
theorem alignments_exhaustive_coverage_witness :
    spansCover (fileLines (some ⟨"t", FileContent.text
        ["0", "1", "2", "3", "4", "5", "6", "7", "8"]⟩)).length 0
      ((compute_alignments_from_hunks [⟨2, 2, 2, 3⟩, ⟨6, 1, 7, 2⟩]
          (some ⟨"t", FileContent.text ["0", "1", "2", "3", "4", "5", "6", "7", "8"]⟩)
          (some ⟨"t", FileContent.text
            ["0", "1", "a", "b", "c", "4", "5", "x", "y", "7", "8"]⟩)).map Alignment.before) = true ∧
    spansCover (fileLines (some ⟨"t", FileContent.text
        ["0", "1", "a", "b", "c", "4", "5", "x", "y", "7", "8"]⟩)).length 0
      ((compute_alignments_from_hunks [⟨2, 2, 2, 3⟩, ⟨6, 1, 7, 2⟩]
          (some ⟨"t", FileContent.text ["0", "1", "2", "3", "4", "5", "6", "7", "8"]⟩)
          (some ⟨"t", FileContent.text
            ["0", "1", "a", "b", "c", "4", "5", "x", "y", "7", "8"]⟩)).map Alignment.after) = true :=
  alignments_exhaustive_coverage [⟨2, 2, 2, 3⟩, ⟨6, 1, 7, 2⟩]
    (some ⟨"t", FileContent.text ["0", "1", "2", "3", "4", "5", "6", "7", "8"]⟩)
    (some ⟨"t", FileContent.text ["0", "1", "a", "b", "c", "4", "5", "x", "y", "7", "8"]⟩)
    (by decide)

end Staged

namespace Staged

/-- A well-formed hunk list never makes the gap subtractions of the loop
underflow: the cursors never pass the next hunk's start. -/
lemma hunksWF_no_underflow (bl al : Nat) :
    ∀ (hunks : List Hunk) (bpos apos : Nat),
      hunksWF bl al bpos apos hunks = true → gapUnderflows bpos apos hunks = false := by
  intro hunks
  induction hunks with
  | nil => intro bpos apos _; rfl
  | cons hunk rest ih =>
    intro bpos apos hwf
    simp only [hunksWF, Bool.and_eq_true, decide_eq_true_eq] at hwf
    obtain ⟨⟨⟨⟨h1, h2⟩, _⟩, _⟩, h5⟩ := hwf
    simp only [gapUnderflows, ih _ _ h5, Bool.or_false]
    simp [not_lt.mpr h1, not_lt.mpr h2]

/-- C3 (counterexample).  The claim asserts defensive behaviour on malformed
hunks; but a hunk whose ranges exceed the buffer lengths makes the result
violate exhaustive coverage: with two 2-line buffers and the out-of-range
hunk `{old: [0,5), new: [0,5)}`, the emitted before spans tile `[0,5)`, not
`[0,2)`. -/
theorem malformed_hunks_counterexample :
    spansCover 2 0
      ((compute_alignments_from_hunks [⟨0, 5, 0, 5⟩]
          (some ⟨"t", FileContent.text ["x", "y"]⟩)
          (some ⟨"t", FileContent.text ["x", "y"]⟩)).map Alignment.before) = false := by
  decide

/-- C3 (amended).  For well-formed hunk lists (ordered ascending,
non-overlapping, ranges within the buffer lengths) no gap subtraction in
`compute_alignments_from_hunks` underflows (so no panic is possible) and the
result satisfies exhaustive coverage; malformed hunk lists enjoy no such
defence (see `malformed_hunks_counterexample`). -/
theorem malformed_hunks_amended (hunks : List Hunk) (before after : Option File)
    (hwf : hunksWF (fileLines before).length (fileLines after).length 0 0 hunks = true) :
    gapUnderflows 0 0 hunks = false ∧
    spansCover (fileLines before).length 0
      ((compute_alignments_from_hunks hunks before after).map Alignment.before) = true ∧
    spansCover (fileLines after).length 0
      ((compute_alignments_from_hunks hunks before after).map Alignment.after) = true :=
  ⟨hunksWF_no_underflow _ _ hunks 0 0 hwf,
   (compute_covers hunks before after hwf).1,
   (compute_covers hunks before after hwf).2⟩

/-- Witness for `malformed_hunks_amended`: a concrete well-formed single-hunk
input over a 3-line / 4-line file pair. -/
theorem malformed_hunks_amended_witness :
    gapUnderflows 0 0 [⟨1, 1, 1, 2⟩] = false ∧
    spansCover (fileLines (some ⟨"t", FileContent.text ["a", "X", "c"]⟩)).length 0
      ((compute_alignments_from_hunks [⟨1, 1, 1, 2⟩]
          (some ⟨"t", FileContent.text ["a", "X", "c"]⟩)
          (some ⟨"t", FileContent.text ["a", "Y", "Z", "c"]⟩)).map Alignment.before) = true ∧
    spansCover (fileLines (some ⟨"t", FileContent.text ["a", "Y", "Z", "c"]⟩)).length 0
      ((compute_alignments_from_hunks [⟨1, 1, 1, 2⟩]
          (some ⟨"t", FileContent.text ["a", "X", "c"]⟩)
          (some ⟨"t", FileContent.text ["a", "Y", "Z", "c"]⟩)).map Alignment.after) = true :=
  malformed_hunks_amended [⟨1, 1, 1, 2⟩]
    (some ⟨"t", FileContent.text ["a", "X", "c"]⟩)
    (some ⟨"t", FileContent.text ["a", "Y", "Z", "c"]⟩)
    (by decide)

end Staged

namespace Staged

/-- Unpack `linesAgree` into element-wise `get?` equality. -/
lemma linesAgree_get {bl al : List String} {bpos apos n : Nat}
    (h : linesAgree bl al bpos apos n = true) :
    ∀ i < n, bl.get? (bpos + i) = al.get? (apos + i) := by
  intro i hi
  have hmem : i ∈ List.range n := List.mem_range.mpr hi
  have := List.all_eq_true.mp h i hmem
  exact eq_of_beq this

/-- The hunk loop only emits `changed = false` alignments for the gaps, and
under `gapsOk` every gap has equal span lengths and element-wise equal line
content. -/
lemma alignLoop_unchanged (bl al : List String) :
    ∀ (hunks : List Hunk) (bpos apos : Nat),
      gapsOk bl al bpos apos hunks = true →
      ∀ a ∈ alignLoop bl.length al.length hunks bpos apos, a.changed = false →
        a.before.len = a.after.len ∧
        ∀ i < a.before.len,
          bl.get? (a.before.start + i) = al.get? (a.after.start + i) := by
  intro hunks
  induction hunks with
  | nil =>
    intro bpos apos hok a ha _
    simp only [gapsOk, Bool.and_eq_true, decide_eq_true_eq] at hok
    obtain ⟨⟨⟨g1, g2⟩, g3⟩, g4⟩ := hok
    have g3' : bl.length - bpos = al.length - apos := eq_of_beq g3
    simp only [alignLoop] at ha
    split at ha
    · rw [List.mem_singleton] at ha
      subst ha
      refine ⟨g3', ?_⟩
      intro i hi
      exact linesAgree_get g4 i hi
    · simp at ha
  | cons hunk rest ih =>
    intro bpos apos hok a ha hch
    simp only [gapsOk, Bool.and_eq_true, decide_eq_true_eq] at hok
    obtain ⟨⟨⟨⟨g1, g2⟩, g3⟩, g4⟩, g5⟩ := hok
    have g3' : hunk.old_start - bpos = hunk.new_start - apos := eq_of_beq g3
    simp only [alignLoop, List.mem_append, List.mem_cons] at ha
    rcases ha with hgap | rfl | hr
    · split at hgap
      · split at hgap
        · rw [List.mem_singleton] at hgap
          subst hgap
          refine ⟨g3', ?_⟩
          intro i hi
          exact linesAgree_get g4 i hi
        · simp at hgap
      · simp at hgap
    · simp at hch
    · exact ih _ _ g5 a hr hch

/-- C2 (counterexample).  The claim quantifies over every input; but with no
hunks and two unequal non-empty buffers the defensive fallback emits a
`changed = false` alignment whose spans have different lengths (and whose
line content differs). -/
theorem unchanged_invariant_counterexample :
    compute_alignments_from_hunks []
        (some ⟨"t", FileContent.text ["a"]⟩)
        (some ⟨"t", FileContent.text ["b", "c"]⟩) =
      [⟨Span.new 0 1, Span.new 0 2, false⟩] ∧
    (Span.new 0 1).len ≠ (Span.new 0 2).len := by
  decide

/-- C2 (amended).  For every input whose hunk list faithfully matches the
buffers (equal-sized, element-wise-equal gaps before, between and after the
hunks — or a pure add/delete with no hunks), every alignment with
`changed = false` has `before.len() == after.len()` and the corresponding
line slices are element-wise equal. -/
theorem unchanged_invariant_faithful (hunks : List Hunk) (before after : Option File)
    (hf : hunksFaithful before after hunks = true) :
    ∀ a ∈ compute_alignments_from_hunks hunks before after, a.changed = false →
      a.before.len = a.after.len ∧
      ∀ i < a.before.len,
        (fileLines before).get? (a.before.start + i) =
          (fileLines after).get? (a.after.start + i) := by
  intro a ha hch
  unfold compute_alignments_from_hunks at ha
  unfold hunksFaithful at hf
  simp only [Bool.or_eq_true, Bool.and_eq_true, List.isEmpty_iff, beq_iff_eq] at hf
  by_cases h0 : (fileLines before).length = 0 ∧ (fileLines after).length = 0
  · rw [if_pos h0] at ha
    simp at ha
  · rw [if_neg h0] at ha
    by_cases he : hunks.isEmpty
    · rw [if_pos he] at ha
      split_ifs at ha with hb hA
      · rw [List.mem_singleton] at ha
        subst ha
        simp at hch
      · rw [List.mem_singleton] at ha
        subst ha
        simp at hch
      · -- both buffers non-empty: the fallback unchanged alignment
        rw [List.mem_singleton] at ha
        subst ha
        have hok : gapsOk (fileLines before) (fileLines after) 0 0 hunks = true := by
          rcases hf with ⟨_, h⟩ | h
          · rcases h with h | h
            · simp [Bool.or_eq_true, beq_iff_eq] at h
              exact absurd (by simp [h]) hb
            · simp [Bool.or_eq_true, beq_iff_eq] at h
              exact absurd (by simp [h]) hA
          · exact h
        rw [List.isEmpty_iff] at he
        subst he
        simp only [gapsOk, Bool.and_eq_true, decide_eq_true_eq] at hok
        obtain ⟨⟨⟨g1, g2⟩, g3⟩, g4⟩ := hok
        have g3' : (fileLines before).length - 0 = (fileLines after).length - 0 := eq_of_beq g3
        simp only [Nat.sub_zero] at g3'
        refine ⟨by simp [Span.new, Span.len, g3'], ?_⟩
        intro i hi
        simp only [Span.new, Span.len, Nat.sub_zero] at hi ⊢
        have := linesAgree_get g4 i (by omega)
        simpa using this
    · rw [if_neg he] at ha
      have hok : gapsOk (fileLines before) (fileLines after) 0 0 hunks = true := by
        rcases hf with ⟨h, _⟩ | h
        · rw [List.isEmpty_iff] at he
          exact absurd h he
        · exact h
      exact alignLoop_unchanged (fileLines before) (fileLines after) hunks 0 0 hok a ha hch

/-- Witness for `unchanged_invariant_faithful`: a faithful single-hunk input;
the first emitted alignment is the unchanged gap `[0,1)/[0,1)` and its spans
have equal length. -/
theorem unchanged_invariant_faithful_witness :
    hunksFaithful (some ⟨"t", FileContent.text ["a", "X", "c"]⟩)
        (some ⟨"t", FileContent.text ["a", "Y", "Z", "c"]⟩) [⟨1, 1, 1, 2⟩] = true ∧
    (Alignment.mk (Span.new 0 1) (Span.new 0 1) false).before.len =
      (Alignment.mk (Span.new 0 1) (Span.new 0 1) false).after.len :=
  ⟨by decide,
   (unchanged_invariant_faithful [⟨1, 1, 1, 2⟩]
      (some ⟨"t", FileContent.text ["a", "X", "c"]⟩)
      (some ⟨"t", FileContent.text ["a", "Y", "Z", "c"]⟩)
      (by decide)
      (Alignment.mk (Span.new 0 1) (Span.new 0 1) false)
      (by decide) rfl).1⟩

end Staged

namespace Staged

/-- The capped prefix inspected by `is_binary_data` is just the first 8192
bytes. -/
lemma take_check_len (bytes : List Nat) :
    bytes.take (min bytes.length 8192) = bytes.take 8192 := by
  rcases le_total bytes.length 8192 with h | h
  · rw [min_eq_left h, List.take_of_length_le le_rfl, List.take_of_length_le h]
  · rw [min_eq_right h]

/-- C7 (counterexample).  The claim says a `0x00` byte beyond the first 8192
bytes does not cause a binary classification; but `is_binary_content` (used
by `get_untracked_file_diff` and `get_ref_diff`) checks all bytes: on 8192
non-zero bytes followed by one `0x00`, it classifies binary while
`FileContent::is_binary_data` does not. -/
theorem binary_gate_counterexample :
    GitDiff.is_binary_content (List.replicate 8192 1 ++ [0]) = true ∧
    FileContent.is_binary_data (List.replicate 8192 1 ++ [0]) = false := by
  constructor
  · exact List.elem_iff.mpr (List.mem_append_right _ (List.mem_singleton.mpr rfl))
  · show ((List.replicate 8192 (1 : Nat) ++ [0]).take
      (min (List.replicate 8192 (1 : Nat) ++ [0]).length 8192)).contains 0 = false
    rw [take_check_len]
    have htake : (List.replicate 8192 (1 : Nat) ++ [0]).take 8192 = List.replicate 8192 1 :=
      List.take_left' (List.length_replicate 8192 1)
    rw [htake, Bool.eq_false_iff]
    intro hc
    rw [List.elem_iff, List.mem_replicate] at hc
    exact absurd hc.2 (by decide)

/-- C7 (amended).  `FileContent::is_binary_data` classifies content as binary
exactly when a `0x00` byte occurs within the first 8192 bytes, while the
`is_binary_content` helper of `git/diff/mod.rs` classifies content as binary
when a `0x00` byte occurs anywhere; a binary-classified file bypasses
alignment computation, yielding `is_binary = true` with empty line, hunk and
range lists. -/
theorem binary_gate_amended (bytes : List Nat) (path : String) :
    (FileContent.is_binary_data bytes = true ↔ (0 : Nat) ∈ bytes.take 8192) ∧
    (GitDiff.is_binary_content bytes = true ↔ (0 : Nat) ∈ bytes) ∧
    (GitDiff.is_binary_content bytes = true →
      (GitDiff.get_untracked_file_diff path bytes).is_binary = true ∧
      (GitDiff.get_untracked_file_diff path bytes).hunks = [] ∧
      (GitDiff.get_untracked_file_diff path bytes).ranges = [] ∧
      (GitDiff.get_untracked_file_diff path bytes).before.lines = [] ∧
      (GitDiff.get_untracked_file_diff path bytes).after.lines = []) := by
  refine ⟨?_, ?_, ?_⟩
  · rw [FileContent.is_binary_data]
    simp only [take_check_len]
    exact List.elem_iff
  · rw [GitDiff.is_binary_content]
    exact List.elem_iff
  · intro h
    unfold GitDiff.get_untracked_file_diff
    rw [if_pos h]
    exact ⟨rfl, rfl, rfl, rfl, rfl⟩

/-- Witness for `binary_gate_amended`: the single null byte is classified
binary and the untracked-file diff for it bypasses alignment computation. -/
theorem binary_gate_amended_witness :
    (GitDiff.get_untracked_file_diff "f" [0]).is_binary = true ∧
    (GitDiff.get_untracked_file_diff "f" [0]).hunks = [] ∧
    (GitDiff.get_untracked_file_diff "f" [0]).ranges = [] ∧
    (GitDiff.get_untracked_file_diff "f" [0]).before.lines = [] ∧
    (GitDiff.get_untracked_file_diff "f" [0]).after.lines = [] :=
  (binary_gate_amended [0] "f").2.2 (by decide)

end Staged
